import Mathlib

/-!
# Verification of the GR crash-data analysis script

Shallow embedding of `src/scripts/statistics.js` (a single-file Node.js
batch script that loads a CSV of traffic crashes, aggregates statistics
in one pass, and prints a report), together with proofs and refutations
of the specification's claims.

Modelling conventions:

* JavaScript objects used as dictionaries are modelled as association
  lists `List (κ × Nat)` in property-insertion order (plain string keys
  on a JS object enumerate in insertion order; integer-like keys
  enumerate in ascending numeric order, which we model explicitly where
  it matters).
* JS `Date` values are modelled by their epoch-millisecond timestamp
  (`Int`); `Date` comparison in the source compares these timestamps.
  Parsing of the raw date-time string by the `Date` constructor is
  abstracted to the resulting timestamp, and `getMonth` is computed on
  the UTC calendar (the host time zone is abstracted away).
* JS numbers appearing in the normalizer are modelled exactly as
  rationals (`ℚ`), with `NaN` as `Option.none` and signed infinities as
  explicit constructors; IEEE-754 rounding and overflow are abstracted.
-/

set_option maxHeartbeats 1000000

namespace GRCrash

/-! ## Dictionary counters: `_incrementSummation`

The source (`statistics.js`):

```
function _incrementSummation( obj, propertyName ) {
  if ( !obj[ propertyName ] ) obj[ propertyName ] = 1;
  else obj[ propertyName ]++;
}
```

A missing property and a stored `0` are both falsy, so both reset to 1.
New keys are appended in insertion order; existing keys keep their slot.
-/

/-- The `else obj[p]++` / `obj[p] = 1` update on one stored value: a
falsy (absent-or-zero) slot becomes 1, otherwise it is incremented. -/
def jsIncr (v : Nat) : Nat :=
  if v = 0 then 1 else v + 1

/-- `_incrementSummation` on a dictionary modelled as an association
list in insertion order: bump the key's slot in place, or append the
key with count 1. -/
def _incrementSummation {κ : Type} [DecidableEq κ] :
    List (κ × Nat) → κ → List (κ × Nat)
  | [], k => [(k, 1)]
  | (k', v) :: rest, k =>
    if k' = k then (k', jsIncr v) :: rest
    else (k', v) :: _incrementSummation rest k

/-- `_incrementSummation` on a scalar counter property of the stats
object (`stats.includesAlcohol` etc.), where `none` is "property not
present" (JS `undefined`). -/
def incCounter : Option Nat → Option Nat
  | none => some 1
  | some 0 => some 1
  | some (n + 1) => some (n + 2)

/-! ## Fixed conversion tables -/

def DAY_OF_WEEK_CONVERSION : List String :=
  ["Sunday", "Monday", "Tuesday", "Wednesday", "Thursday", "Friday", "Saturday"]

def MONTH_CONVERSION : List String :=
  ["January", "February", "March", "April", "May", "June", "July",
   "August", "September", "October", "November", "December"]

/-! ## Date arithmetic

`new Date(ms).getMonth()` on the proleptic Gregorian (UTC) calendar,
via the standard civil-from-days conversion on the day number. -/

/-- 0-based calendar month of an epoch-millisecond timestamp. -/
def getMonth (t : Int) : Nat :=
  let days := t.fdiv 86400000
  let z := days + 719468
  let era := z.fdiv 146097
  let doe := z - era * 146097
  let yoe := (doe - doe.fdiv 1460 + doe.fdiv 36524 - doe.fdiv 146096).fdiv 365
  let doy := doe - (365 * yoe + yoe.fdiv 4 - yoe.fdiv 100)
  let mp := (5 * doy + 2).fdiv 153
  let m := if mp < 10 then mp + 3 else mp - 9
  (m - 1).toNat

/-- `MONTH_CONVERSION[ getMonth(date) ]` as a property key: an
out-of-range index reads `undefined`, which JS coerces to the property
key string `"undefined"`. -/
def monthKey (t : Int) : String :=
  MONTH_CONVERSION.getD (getMonth t) "undefined"

/-- `DAY_OF_WEEK_CONVERSION[ item.Dayoftheweek - 1 ]` as a property
key; indices outside `0..6` read `undefined` (key `"undefined"`). -/
def dayOfWeekKey (d : Int) : String :=
  if 1 ≤ d ∧ d ≤ 7 then DAY_OF_WEEK_CONVERSION.getD (d - 1).toNat "undefined"
  else "undefined"

/-- The shifted hour bucket `( item.HourofDay + 4 ) % 24` from
`computeStats` (source comment: "Hour of day starts at 4am = 0 and
wraps around until 3am = 23"). -/
def hourBucket (h : Nat) : Nat :=
  (h + 4) % 24

/-! ## Records and the statistics model -/

/-- One normalized crash record, with the fields `computeStats` reads.
`CrashDateandTime` holds the epoch-millisecond timestamp that
`new Date(item.CrashDateandTime)` produces for the record (the string
parse performed by the `Date` constructor is abstracted to its result,
assumed valid). The seven involvement flags are the booleans produced
by the yes/no normalization. -/
structure CrashRecord where
  CrashDateandTime : Int
  CrashType : String
  CrashSeverity : String
  Dayoftheweek : Int
  HourofDay : Nat
  CrashLocation : String
  PropertyDamageIndicator : Bool
  AlcoholInvolved : Bool
  AggressiveDriverInvolved : Bool
  BicycleInvolved : Bool
  CellPhoneInvolved : Bool
  AnimalInvolved : Bool
  DrugInvolved : Bool
  deriving DecidableEq, Repr

/-- The statistics object built by `computeStats`: breakdown
dictionaries in insertion order, optional min/max dates, and the seven
optional scalar involvement counters (JS: properties that may be
absent). -/
structure CrashStats where
  totalCrashes : Nat
  earliestCrashDate : Option Int
  latestCrashDate : Option Int
  type : List (String × Nat)
  severity : List (String × Nat)
  month : List (String × Nat)
  dayOfWeek : List (String × Nat)
  hour : List (Nat × Nat)
  intersection : List (String × Nat)
  intersectionTop10 : List (String × Nat)
  includesPropertyDamage : Option Nat
  includesAlcohol : Option Nat
  includesAggressiveDriver : Option Nat
  includesBicycle : Option Nat
  includesCellPhone : Option Nat
  includesAnimal : Option Nat
  includesDrugs : Option Nat
  deriving DecidableEq, Repr

/-- The stats object as initialised at the top of `computeStats`
(before the loop): total set to `data.length`, empty breakdowns, no
dates, no counters. -/
def initStats (len : Nat) : CrashStats where
  totalCrashes := len
  earliestCrashDate := none
  latestCrashDate := none
  type := []
  severity := []
  month := []
  dayOfWeek := []
  hour := []
  intersection := []
  intersectionTop10 := []
  includesPropertyDamage := none
  includesAlcohol := none
  includesAggressiveDriver := none
  includesBicycle := none
  includesCellPhone := none
  includesAnimal := none
  includesDrugs := none

/-- `if (b) _incrementSummation(stats, counter)` for one boolean
involvement flag. -/
def stepCounter (b : Bool) (o : Option Nat) : Option Nat :=
  if b then incCounter o else o

/-- The body of the `for ( const item of data )` loop in
`computeStats`. -/
def stepStats (s : CrashStats) (item : CrashRecord) : CrashStats :=
  let crashDate := item.CrashDateandTime
  { s with
    earliestCrashDate :=
      match s.earliestCrashDate with
      | none => some crashDate
      | some e => if crashDate < e then some crashDate else some e
    latestCrashDate :=
      match s.latestCrashDate with
      | none => some crashDate
      | some l => if crashDate > l then some crashDate else some l
    type := _incrementSummation s.type item.CrashType
    severity := _incrementSummation s.severity item.CrashSeverity
    month := _incrementSummation s.month (monthKey item.CrashDateandTime)
    dayOfWeek := _incrementSummation s.dayOfWeek (dayOfWeekKey item.Dayoftheweek)
    hour := _incrementSummation s.hour (hourBucket item.HourofDay)
    intersection := _incrementSummation s.intersection item.CrashLocation
    includesPropertyDamage := stepCounter item.PropertyDamageIndicator s.includesPropertyDamage
    includesAlcohol := stepCounter item.AlcoholInvolved s.includesAlcohol
    includesAggressiveDriver := stepCounter item.AggressiveDriverInvolved s.includesAggressiveDriver
    includesBicycle := stepCounter item.BicycleInvolved s.includesBicycle
    includesCellPhone := stepCounter item.CellPhoneInvolved s.includesCellPhone
    includesAnimal := stepCounter item.AnimalInvolved s.includesAnimal
    includesDrugs := stepCounter item.DrugInvolved s.includesDrugs }

/-! ## The intersection top-10

```
Object.entries( stats.breakdowns.intersection )
  .sort( ( a, b ) => b[ 1 ] - a[ 1 ] )
  .slice( 0, 10 )
```

`Array.prototype.sort` is stable (ES2019), and the comparator orders by
count descending only, so the result is the unique permutation of the
entry list that is sorted by count descending and preserves the entry
list's order among equal counts. We model it by a stable insertion
sort and prove those three characterising properties below. -/

/-- Insert an entry into a count-descending-sorted list, after every
entry with a strictly larger count and before every entry with a
smaller-or-equal count (stability: the inserted entry precedes equal
counts coming from later in the original list). -/
def insertByCountDesc (x : String × Nat) : List (String × Nat) → List (String × Nat)
  | [] => [x]
  | y :: ys => if x.2 < y.2 then y :: insertByCountDesc x ys else x :: y :: ys

/-- Stable sort by count descending, modelling
`.sort( ( a, b ) => b[ 1 ] - a[ 1 ] )`. -/
def sortByCountDesc : List (String × Nat) → List (String × Nat)
  | [] => []
  | x :: xs => insertByCountDesc x (sortByCountDesc xs)

/-- `computeStats` from `statistics.js`: single pass over the records,
then the derived intersection top-10. -/
def computeStats (data : List CrashRecord) : CrashStats :=
  let base := data.foldl stepStats (initStats data.length)
  { base with
    intersectionTop10 := (sortByCountDesc base.intersection).take 10 }

/-- Total of all counts stored in a breakdown dictionary. -/
def sumCounts {κ : Type} (l : List (κ × Nat)) : Nat :=
  (l.map Prod.snd).sum

/-- The hour-bucket map restricted to the raw-hour domain `0..23`.
`(h + 4) % 24 < 24` always. -/
def hourBucketFin (h : Fin 24) : Fin 24 :=
  ⟨hourBucket h.val, Nat.mod_lt _ (by norm_num)⟩

/-- The running-minimum update
`if ( !stats.earliestCrashDate || crashDate < stats.earliestCrashDate )`
on one date, as a standalone fold step. -/
def minDateFold (o : Option Int) (d : Int) : Option Int :=
  match o with
  | none => some d
  | some e => if d < e then some d else some e

/-- The running-maximum update
`if ( !stats.latestCrashDate || crashDate > stats.latestCrashDate )`
on one date, as a standalone fold step. -/
def maxDateFold (o : Option Int) (d : Int) : Option Int :=
  match o with
  | none => some d
  | some e => if d > e then some d else some e

/-! ## The field normalizer (`loadCrashData`'s `mapValues`)

JS string and number primitives used by the normalizer. `\s` and the
trimming done by `Number` cover the ASCII whitespace characters plus
NBSP and the BOM (the exotic Unicode space characters are outside the
data's alphabet and are not modelled). `toLowerCase` is modelled on
ASCII, all the normalizer compares against is `"yes"`/`"no"`.
JS numbers are modelled exactly: `NaN` is `Option.none`, infinities
are explicit, finite values are exact rationals (IEEE-754 rounding and
overflow are abstracted away). -/

/-- The character class of the regexes `/\s/` and `/\s\s+/` and of
`Number`'s trimming. -/
def jsIsWhitespace (c : Char) : Bool :=
  c == ' ' || c == '\t' || c == '\n' || c == '\r' ||
    c.val == 11 || c.val == 12 || c.val == 0xA0 || c.val == 0xFEFF

/-- A JS number that is not `NaN`. -/
inductive JsNum where
  | finite (q : ℚ)
  | posInf
  | negInf
  deriving DecidableEq, Repr

/-- Value of a list of decimal digit characters. -/
def digitsToNat (l : List Char) : Nat :=
  l.foldl (fun acc c => acc * 10 + (c.toNat - '0'.toNat)) 0

/-- `ip . fp` as an exact rational. -/
def mantissaQ (ip fp : List Char) : ℚ :=
  (digitsToNat ip : ℚ) + (digitsToNat fp : ℚ) / ((10 : ℚ) ^ fp.length)

/-- Parse an optional exponent part that must consume the rest of the
string (`Number` semantics: trailing garbage makes the whole literal
invalid). -/
def parseExponentRest (l : List Char) (m : ℚ) : Option ℚ :=
  match l with
  | [] => some m
  | e :: rest =>
    if e = 'e' ∨ e = 'E' then
      let sgnAndRest : Int × List Char :=
        match rest with
        | '+' :: r => (1, r)
        | '-' :: r => (-1, r)
        | r => (1, r)
      let expDigits := sgnAndRest.2.takeWhile Char.isDigit
      if expDigits.isEmpty ∨ ¬ (sgnAndRest.2.drop expDigits.length).isEmpty then none
      else some (m * (10 : ℚ) ^ (sgnAndRest.1 * (digitsToNat expDigits : Int)))
    else none

/-- Parse an unsigned decimal literal (`digits [. digits] [exp]`,
`. digits [exp]`), entire input consumed, at least one mantissa
digit. -/
def parseUnsignedDecimal (l : List Char) : Option ℚ :=
  let intDigits := l.takeWhile Char.isDigit
  let rest1 := l.drop intDigits.length
  match rest1 with
  | '.' :: rest2 =>
    let fracDigits := rest2.takeWhile Char.isDigit
    let rest3 := rest2.drop fracDigits.length
    if intDigits.isEmpty ∧ fracDigits.isEmpty then none
    else parseExponentRest rest3 (mantissaQ intDigits fracDigits)
  | _ =>
    if intDigits.isEmpty then none
    else parseExponentRest rest1 (mantissaQ intDigits [])

/-- Digit value in a given radix (hex letters allowed). -/
def radixDigitVal (radix : Nat) (c : Char) : Option Nat :=
  let v : Option Nat :=
    if c.isDigit then some (c.toNat - '0'.toNat)
    else if 'a' ≤ c ∧ c ≤ 'f' then some (c.toNat - 'a'.toNat + 10)
    else if 'A' ≤ c ∧ c ≤ 'F' then some (c.toNat - 'A'.toNat + 10)
    else none
  match v with
  | some d => if d < radix then some d else none
  | none => none

/-- A non-empty all-digits literal in the given radix
(`0x…`/`0o…`/`0b…` bodies). -/
def parseRadix (radix : Nat) (l : List Char) : Option JsNum :=
  if l.isEmpty then none
  else
    (l.foldl
      (fun acc c =>
        match acc, radixDigitVal radix c with
        | some n, some d => some (n * radix + d)
        | _, _ => none)
      (some 0)).map (fun n => JsNum.finite (n : ℚ))

/-- `Number(s)` — the ECMAScript StringNumericLiteral grammar: trim,
empty string is 0, `Infinity` forms, radix-prefixed integers (no
sign), otherwise an optionally-signed decimal literal; anything else
is `NaN` (`none`). -/
def jsStringToNumber (s : String) : Option JsNum :=
  let t := ((s.data.dropWhile jsIsWhitespace).reverse.dropWhile jsIsWhitespace).reverse
  let core : List Char → Option JsNum := fun u =>
    if u = "Infinity".data then some .posInf
    else (parseUnsignedDecimal u).map .finite
  match t with
  | [] => some (.finite 0)
  | '+' :: r => core r
  | '-' :: r =>
    match core r with
    | some .posInf => some .negInf
    | some (.finite q) => some (.finite (-q))
    | some .negInf => none
    | none => none
  | '0' :: c :: r =>
    if c = 'x' ∨ c = 'X' then parseRadix 16 r
    else if c = 'o' ∨ c = 'O' then parseRadix 8 r
    else if c = 'b' ∨ c = 'B' then parseRadix 2 r
    else core t
  | _ => core t

/-- Longest-valid-prefix decimal parse used by `parseFloat`: mantissa
digits (with optional dot part), then an exponent only if it is
well-formed; trailing garbage is ignored; fails only when no mantissa
digit is found. -/
def parseFloatLead (l : List Char) : Option ℚ :=
  let ip := l.takeWhile Char.isDigit
  let rest1 := l.drop ip.length
  let fpAndRest : List Char × List Char :=
    match rest1 with
    | '.' :: r => (r.takeWhile Char.isDigit, r.drop (r.takeWhile Char.isDigit).length)
    | _ => ([], rest1)
  if ip.isEmpty ∧ fpAndRest.1.isEmpty then none
  else
    let m := mantissaQ ip fpAndRest.1
    match fpAndRest.2 with
    | [] => some m
    | c :: r =>
      if c = 'e' ∨ c = 'E' then
        let esAndRest : Int × List Char :=
          match r with
          | '+' :: rr => (1, rr)
          | '-' :: rr => (-1, rr)
          | rr => (1, rr)
        let ed := esAndRest.2.takeWhile Char.isDigit
        if ed.isEmpty then some m
        else some (m * (10 : ℚ) ^ (esAndRest.1 * (digitsToNat ed : Int)))
      else some m

/-- `parseFloat(s)`: skip leading whitespace, optional sign,
`Infinity` or the longest decimal-literal prefix; `NaN` (`none`) when
no prefix parses. -/
def jsParseFloat (s : String) : Option JsNum :=
  let l := s.data.dropWhile jsIsWhitespace
  let sgnAndRest : Int × List Char :=
    match l with
    | '+' :: r => (1, r)
    | '-' :: r => (-1, r)
    | r => (1, r)
  if sgnAndRest.2.take 8 = "Infinity".data then
    some (if sgnAndRest.1 = 1 then .posInf else .negInf)
  else
    match parseFloatLead sgnAndRest.2 with
    | none => none
    | some q => some (.finite (if sgnAndRest.1 = 1 then q else -q))

/-- `_isNumeric` from `statistics.js`:
`!isNaN( str ) && !isNaN( parseFloat( str ) )` (the value reaching it
is always a string in the loader). -/
def _isNumeric (s : String) : Bool :=
  (jsStringToNumber s).isSome && (jsParseFloat s).isSome

/-- `value.toLowerCase()` (ASCII case mapping; the normalizer only
compares the result to `"yes"` / `"no"`). -/
def jsToLowerCase (s : String) : String :=
  ⟨s.data.map Char.toLower⟩

/-! ## Crash-location canonicalization

`value.replace( /\s\s+/g, ' ' ).trim().split( ' & ' ).sort().join( ' & ' )`
-/

/-- `replace( /\s\s+/g, ' ' )`: each maximal run of two or more
whitespace characters becomes a single space (a lone whitespace
character is untouched). -/
def collapseWhitespaceRuns : List Char → List Char
  | [] => []
  | [c] => [c]
  | c :: d :: rest =>
    if jsIsWhitespace c ∧ jsIsWhitespace d then
      ' ' :: collapseWhitespaceRuns (rest.dropWhile jsIsWhitespace)
    else
      c :: collapseWhitespaceRuns (d :: rest)
termination_by l => l.length
decreasing_by
  · have := (List.dropWhile_sublist (l := rest) jsIsWhitespace).length_le
    simp; omega
  · simp

/-- `String.prototype.trim()`. -/
def jsTrim (l : List Char) : List Char :=
  ((l.dropWhile jsIsWhitespace).reverse.dropWhile jsIsWhitespace).reverse

/-- `split( ' & ' )`: split on the leftmost non-overlapping
occurrences of the three-character separator. -/
def splitOnAmp (l : List Char) : List (List Char) :=
  match l with
  | [] => [[]]
  | c :: rest =>
    if c = ' ' ∧ rest.take 2 = ['&', ' '] then
      [] :: splitOnAmp (rest.drop 2)
    else
      match splitOnAmp rest with
      | [] => [[c]]
      | hd :: t => (c :: hd) :: t
termination_by l.length
decreasing_by
  · have := List.length_drop 2 rest
    simp; omega
  · simp

/-- JS default string comparison (`<` on code units), as used by
`.sort()` with no comparator. -/
def strLt : List Char → List Char → Bool
  | [], [] => false
  | [], _ :: _ => true
  | _ :: _, [] => false
  | a :: as, b :: bs =>
    if a < b then true
    else if b < a then false
    else strLt as bs

/-- Stable insertion of a string into a sorted list: skip strictly
smaller earlier strings, land before the first not-smaller one. -/
def insertStr (x : List Char) : List (List Char) → List (List Char)
  | [] => [x]
  | y :: ys => if strLt y x then y :: insertStr x ys else x :: y :: ys

/-- `Array.prototype.sort()` (default string order, stable) on a list
of strings. -/
def jsSortStrings : List (List Char) → List (List Char)
  | [] => []
  | x :: xs => insertStr x (jsSortStrings xs)

/-- `join( ' & ' )`. -/
def joinAmp : List (List Char) → List Char
  | [] => []
  | [p] => p
  | p :: ps => p ++ ' ' :: '&' :: ' ' :: joinAmp ps

/-- The crash-location branch of `mapValues`. -/
def normalizeCrashLocation (s : String) : String :=
  ⟨joinAmp (jsSortStrings (splitOnAmp (jsTrim (collapseWhitespaceRuns s.data))))⟩

/-- No two adjacent whitespace characters (the collapse regex finds
nothing to replace between such a pair). -/
def noDoubleWs (a b : Char) : Prop :=
  jsIsWhitespace a = false ∨ jsIsWhitespace b = false

instance (a b : Char) : Decidable (noDoubleWs a b) := by
  unfold noDoubleWs; infer_instance

/-- A street name on which the canonicalization pipeline is
well-behaved: non-empty, no ampersand, no leading or trailing
whitespace, no two adjacent whitespace characters. -/
def cleanStreetName (l : List Char) : Prop :=
  l ≠ [] ∧ '&' ∉ l ∧
  (∀ c ∈ l.head?, jsIsWhitespace c = false) ∧
  (∀ c ∈ l.getLast?, jsIsWhitespace c = false) ∧
  l.Chain' noDoubleWs

/-- A normalized field value: string kept as-is, coerced number, or
coerced boolean. -/
inductive JSValue where
  | str (s : String)
  | num (n : JsNum)
  | bool (b : Bool)
  deriving DecidableEq, Repr

def CRASH_LOCATION_HEADER : String := "CrashLocation"

/-- `mapValues` from `loadCrashData`: location cleanup first, then
yes/no to booleans, then numeric strings to numbers, else the value is
kept. (`_isNumeric` guarantees `Number(value)` is not `NaN`, so the
`getD` default on the coercion `+value` is never taken.) -/
def mapValues (header : String) (value : String) : JSValue :=
  if header = CRASH_LOCATION_HEADER then .str (normalizeCrashLocation value)
  else if jsToLowerCase value = "yes" then .bool true
  else if jsToLowerCase value = "no" then .bool false
  else if _isNumeric value then .num ((jsStringToNumber value).getD (.finite 0))
  else .str value

/-- `mapHeaders`: `header.replace( /\s/g, '' )` — drop every
whitespace character. -/
def mapHeaders (header : String) : String :=
  ⟨header.data.filter (fun c => ! jsIsWhitespace c)⟩

/-! ## The record loader (`loadCrashData`) -/

/-- A JS `Error` (only its message is relevant here). -/
structure JsError where
  message : String
  deriving DecidableEq, Repr

/-- Which of the three `.on( 'error', … )` registrations the source
associates with the failure (stream read / row decode / end
resolution). All three handlers are attached to the same stream, so at
runtime any stream error reaches all of them; the phase only selects
which context message the source passes along. -/
inductive StreamPhase where
  | streamRead
  | rowDecode
  | endResolution
  deriving DecidableEq, Repr

/-- The context message the source passes to `_rejectPromiseError`
for each phase. -/
def streamPhaseContext : StreamPhase → String
  | .streamRead => "Error thrown parsing CSV."
  | .rowDecode => "Error thrown during data results aggregation."
  | .endResolution => "Error thrown during stream end resolution."

/-- Outcome of the underlying CSV read stream: either every raw row
(header/value string pairs) followed by a clean end event, or a
failure in one of the three phases. -/
inductive StreamOutcome where
  | ok (rows : List (List (String × String)))
  | failure (phase : StreamPhase) (err : JsError)
  deriving DecidableEq, Repr

set_option linter.unusedVariables false in
/-- `_rejectPromiseError( reject, err, contextMessage )` — the value
the promise is rejected with. The source logs `err` and calls
`reject( err )`; the `contextMessage` parameter is accepted but never
used, so the rejection value is the error unchanged. -/
def _rejectPromiseError (err : JsError) (contextMessage : String) : JsError :=
  err

/-- One parsed row: headers stripped of whitespace, each value run
through `mapValues` (csv-parser hands `mapValues` the already-mapped
header). -/
def normalizeRow (row : List (String × String)) : List (String × JSValue) :=
  row.map (fun hv => (mapHeaders hv.1, mapValues (mapHeaders hv.1) hv.2))

/-- `loadCrashData`: resolves with the normalized rows on a clean end
event, rejects through `_rejectPromiseError` on a stream failure. -/
def loadCrashData : StreamOutcome → Except JsError (List (List (String × JSValue)))
  | .ok rows => .ok (rows.map normalizeRow)
  | .failure phase err => .error (_rejectPromiseError err (streamPhaseContext phase))

/-! ## The reporter (`displayStats`)

The console lines are modelled as the strings printed. A counter read
from a missing property is JS `undefined`: the template literal prints
it as `undefined`, and `100.0 * undefined / total` is `NaN`, printed
as `NaN`. -/

/-- Insert `en-US` thousands separators into a reversed digit list. -/
def commaGroupRev : List Char → List Char
  | a :: b :: c :: d :: rest => a :: b :: c :: ',' :: commaGroupRev (d :: rest)
  | l => l

/-- A natural number with `en-US` comma grouping. -/
def commaGrouped (n : Nat) : String :=
  ⟨(commaGroupRev (toString n).data.reverse).reverse⟩

/-- Round half away from zero (`Intl.NumberFormat`'s default
`halfExpand` mode), for the non-negative quantities arising here. -/
def roundHalfExpand (q : ℚ) : Int :=
  ⌊q⌋ + (if (1 : ℚ) / 2 ≤ q - ⌊q⌋ then 1 else 0)

/-- `x.toLocaleString( 'en-US', { maximumFractionDigits: 2 } )` for a
non-negative exact value: at most two fraction digits, trailing zeros
trimmed, comma-grouped integer part. (The double-rounding through the
IEEE-754 value is abstracted: we round the exact rational.) -/
def formatLocale2 (q : ℚ) : String :=
  let hundredths := (roundHalfExpand (q * 100)).toNat
  let ip := hundredths / 100
  let fr := hundredths % 100
  commaGrouped ip ++
    (if fr = 0 then ""
     else if fr % 10 = 0 then "." ++ toString (fr / 10)
     else "." ++ (if fr < 10 then "0" else "") ++ toString fr)

/-- `_convertToPercentString( value, total )`:
`100.0 * value / total` rendered via `toLocaleString` with at most two
fraction digits, then `%`. An absent counter (`undefined`) yields
`NaN`; a positive count over a zero total yields `Infinity`, printed
`∞`. -/
def _convertToPercentString (value : Option Nat) (total : Nat) : String :=
  match value with
  | none => "NaN%"
  | some v =>
    if total = 0 then (if v = 0 then "NaN" else "∞") ++ "%"
    else formatLocale2 ((100 * v : ℚ) / (total : ℚ)) ++ "%"

/-- `${value}` for a possibly-absent counter. -/
def jsTemplateNat : Option Nat → String
  | none => "undefined"
  | some n => toString n

/-- `_logConsoleStat( title, value, totalCrashes )` — the line printed:
``` `${title} - ${value} (${_convertToPercentString( value, totalCrashes )})` ``` -/
def _logConsoleStat (title : String) (value : Option Nat) (totalCrashes : Nat) : String :=
  title ++ " - " ++ jsTemplateNat value ++ " (" ++
    _convertToPercentString value totalCrashes ++ ")"

/-- The `By Misc:` section of `displayStats`: the seven involvement
counters, in source order, each reported against `totalCrashes`. -/
def displayStatsMisc (stats : CrashStats) : List String :=
  [ _logConsoleStat "\tAggressive Driving" stats.includesAggressiveDriver stats.totalCrashes,
    _logConsoleStat "\tInvolved Alcohol " stats.includesAlcohol stats.totalCrashes,
    _logConsoleStat "\tInvolved Cell Phone " stats.includesCellPhone stats.totalCrashes,
    _logConsoleStat "\tInvolved Drugs " stats.includesDrugs stats.totalCrashes,
    _logConsoleStat "\tProperty Damage" stats.includesPropertyDamage stats.totalCrashes,
    _logConsoleStat "\tWith Animal" stats.includesAnimal stats.totalCrashes,
    _logConsoleStat "\tWith Cyclist" stats.includesBicycle stats.totalCrashes ]

/-- `Object.keys` on the hour breakdown. Its keys are the numeric
buckets `( h + 4 ) % 24`, i.e. array-index property keys, which
ECMAScript's ordinary `[[OwnPropertyKeys]]` enumerates in ascending
numeric order regardless of insertion order. -/
def jsIntegerKeys (l : List (Nat × Nat)) : List Nat :=
  (l.map Prod.fst).insertionSort (· ≤ ·)

/-- `breakdown[ property ]` for a numeric-keyed breakdown. -/
def lookupCount (l : List (Nat × Nat)) (k : Nat) : Nat :=
  ((l.find? (fun p => p.1 == k)).map Prod.snd).getD 0

/-- The `By Hour:` section body of `displayStats`:
`_logConsoleBreakdown` is called without a `sortFunction`, so the
lines follow `Object.keys`' order on the hour mapping. -/
def displayStatsHourLines (stats : CrashStats) : List String :=
  (jsIntegerKeys stats.hour).map (fun k =>
    _logConsoleStat ("\t" ++ toString k) (some (lookupCount stats.hour k))
      stats.totalCrashes)

/-- A concrete record used to instantiate universal theorems. -/
def sampleRecord : CrashRecord where
  CrashDateandTime := 1700000000000
  CrashType := "Angle"
  CrashSeverity := "Property Damage"
  Dayoftheweek := 2
  HourofDay := 13
  CrashLocation := "Elm St & Oak St"
  PropertyDamageIndicator := true
  AlcoholInvolved := true
  AggressiveDriverInvolved := false
  BicycleInvolved := false
  CellPhoneInvolved := false
  AnimalInvolved := false
  DrugInvolved := false

/-- A second concrete record (same type, earlier date, other
location). -/
def sampleRecord2 : CrashRecord where
  CrashDateandTime := 1600000000000
  CrashType := "Angle"
  CrashSeverity := "Injury"
  Dayoftheweek := 6
  HourofDay := 2
  CrashLocation := "Division Ave & Fulton St"
  PropertyDamageIndicator := false
  AlcoholInvolved := false
  AggressiveDriverInvolved := true
  BicycleInvolved := false
  CellPhoneInvolved := false
  AnimalInvolved := false
  DrugInvolved := false

/-! ## Basic lemmas about the counter dictionaries -/

theorem jsIncr_eq (v : Nat) : jsIncr v = v + 1 := by
  unfold jsIncr; split <;> omega

@[simp]
theorem sumCounts_nil {κ : Type} : sumCounts ([] : List (κ × Nat)) = 0 := rfl

@[simp]
theorem sumCounts_cons {κ : Type} (p : κ × Nat) (l : List (κ × Nat)) :
    sumCounts (p :: l) = p.2 + sumCounts l := by
  simp [sumCounts]

theorem sumCounts_incrementSummation {κ : Type} [DecidableEq κ]
    (l : List (κ × Nat)) (k : κ) :
    sumCounts (_incrementSummation l k) = sumCounts l + 1 := by
  induction l with
  | nil => simp [_incrementSummation]
  | cons hd tl ih =>
    obtain ⟨k', v⟩ := hd
    by_cases h : k' = k
    · simp [_incrementSummation, h, jsIncr_eq]; omega
    · simp [_incrementSummation, h, ih]; omega

theorem sumCounts_foldl {κ : Type} [DecidableEq κ] (f : CrashRecord → κ)
    (l : List CrashRecord) (m : List (κ × Nat)) :
    sumCounts (l.foldl (fun acc i => _incrementSummation acc (f i)) m) =
      sumCounts m + l.length := by
  induction l generalizing m with
  | nil => simp
  | cons i t ih =>
    simp [List.foldl_cons, ih, sumCounts_incrementSummation]
    omega

/-! ## Projections of the aggregation fold

`stepStats` updates every field of the stats object from that field and
the current record only, so the fold over records commutes with each
projection. -/

theorem foldl_totalCrashes (l : List CrashRecord) (s : CrashStats) :
    (l.foldl stepStats s).totalCrashes = s.totalCrashes := by
  induction l generalizing s with
  | nil => rfl
  | cons i t ih => simp [List.foldl_cons, ih, stepStats]

theorem foldl_type (l : List CrashRecord) (s : CrashStats) :
    (l.foldl stepStats s).type =
      l.foldl (fun m i => _incrementSummation m i.CrashType) s.type := by
  induction l generalizing s with
  | nil => rfl
  | cons i t ih => simp [List.foldl_cons, ih, stepStats]

theorem foldl_severity (l : List CrashRecord) (s : CrashStats) :
    (l.foldl stepStats s).severity =
      l.foldl (fun m i => _incrementSummation m i.CrashSeverity) s.severity := by
  induction l generalizing s with
  | nil => rfl
  | cons i t ih => simp [List.foldl_cons, ih, stepStats]

theorem foldl_month (l : List CrashRecord) (s : CrashStats) :
    (l.foldl stepStats s).month =
      l.foldl (fun m i => _incrementSummation m (monthKey i.CrashDateandTime)) s.month := by
  induction l generalizing s with
  | nil => rfl
  | cons i t ih => simp [List.foldl_cons, ih, stepStats]

theorem foldl_dayOfWeek (l : List CrashRecord) (s : CrashStats) :
    (l.foldl stepStats s).dayOfWeek =
      l.foldl (fun m i => _incrementSummation m (dayOfWeekKey i.Dayoftheweek)) s.dayOfWeek := by
  induction l generalizing s with
  | nil => rfl
  | cons i t ih => simp [List.foldl_cons, ih, stepStats]

theorem foldl_hour (l : List CrashRecord) (s : CrashStats) :
    (l.foldl stepStats s).hour =
      l.foldl (fun m i => _incrementSummation m (hourBucket i.HourofDay)) s.hour := by
  induction l generalizing s with
  | nil => rfl
  | cons i t ih => simp [List.foldl_cons, ih, stepStats]

theorem foldl_intersection (l : List CrashRecord) (s : CrashStats) :
    (l.foldl stepStats s).intersection =
      l.foldl (fun m i => _incrementSummation m i.CrashLocation) s.intersection := by
  induction l generalizing s with
  | nil => rfl
  | cons i t ih => simp [List.foldl_cons, ih, stepStats]

/-- Claim C1 statement, checked on a small example first. -/
example :
    sumCounts (computeStats []).type = (computeStats []).totalCrashes := by decide

/-- C1: in the statistics model of any record sequence, every one of
the six breakdown dictionaries (`type`, `severity`, `month`,
`dayOfWeek`, `hour`, `intersection`) has counts summing to
`totalCrashes`, and `totalCrashes` is the number of input records. -/
theorem computeStats_breakdown_sums (data : List CrashRecord) :
    sumCounts (computeStats data).type = (computeStats data).totalCrashes ∧
    sumCounts (computeStats data).severity = (computeStats data).totalCrashes ∧
    sumCounts (computeStats data).month = (computeStats data).totalCrashes ∧
    sumCounts (computeStats data).dayOfWeek = (computeStats data).totalCrashes ∧
    sumCounts (computeStats data).hour = (computeStats data).totalCrashes ∧
    sumCounts (computeStats data).intersection = (computeStats data).totalCrashes ∧
    (computeStats data).totalCrashes = data.length := by
  have htot : (computeStats data).totalCrashes = data.length := by
    simp [computeStats, foldl_totalCrashes, initStats]
  refine ⟨?_, ?_, ?_, ?_, ?_, ?_, htot⟩ <;>
    simp [computeStats, htot, foldl_type, foldl_severity, foldl_month,
      foldl_dayOfWeek, foldl_hour, foldl_intersection, foldl_totalCrashes,
      sumCounts_foldl, initStats]

/-! ## C2: the shifted hour bucket -/

/-- C2 fails as stated: the code computes `(h + 4) % 24`, which sends
raw hour 4 to bucket 8 (not 0) and raw hour 3 to bucket 7 (not 23). -/
theorem hourBucket_examples_counterexample :
    hourBucket 4 = 8 ∧ hourBucket 4 ≠ 0 ∧ hourBucket 3 = 7 ∧ hourBucket 3 ≠ 23 := by
  decide

/-- C2 (amended): the shifted-hour-bucket map `(h + 4) % 24` used by
`computeStats` is a bijection on `{0..23}`; it maps raw hour 0 to
bucket 4, raw hour 20 to bucket 0 and raw hour 19 to bucket 23
(consistent with the source's comment that the raw encoding has
4 AM = 0, so the map recovers the clock hour). -/
theorem hourBucket_bijective :
    Function.Bijective hourBucketFin ∧
    hourBucket 0 = 4 ∧ hourBucket 20 = 0 ∧ hourBucket 19 = 23 ∧
    ∀ h : Fin 24, (hourBucketFin h).val = (h.val + 4) % 24 := by
  refine ⟨⟨?_, ?_⟩, by decide, by decide, by decide, fun h => rfl⟩
  · intro a b hab
    have : (hourBucketFin a).val = (hourBucketFin b).val := by rw [hab]
    simp [hourBucketFin, hourBucket] at this
    omega
  · intro b
    refine ⟨⟨(b.val + 20) % 24, Nat.mod_lt _ (by norm_num)⟩, ?_⟩
    apply Fin.ext
    simp [hourBucketFin, hourBucket]
    omega

/-! ## Membership and positivity invariants of the dictionaries -/

theorem jsIncr_pos (v : Nat) : 1 ≤ jsIncr v := by
  rw [jsIncr_eq]; omega

/-- The key list of `_incrementSummation`: unchanged when the key is
already present, otherwise the key is appended. -/
theorem keys_incrementSummation {κ : Type} [DecidableEq κ]
    (l : List (κ × Nat)) (k : κ) :
    (_incrementSummation l k).map Prod.fst =
      if k ∈ l.map Prod.fst then l.map Prod.fst else l.map Prod.fst ++ [k] := by
  induction l with
  | nil => simp [_incrementSummation]
  | cons hd tl ih =>
    obtain ⟨k₀, v₀⟩ := hd
    by_cases h : k₀ = k
    · subst h
      simp [_incrementSummation]
    · simp only [_incrementSummation, if_neg h, List.map_cons, ih]
      have hne : ¬ k = k₀ := fun hk => h hk.symm
      by_cases hmem : k ∈ tl.map Prod.fst <;>
        simp [hmem, List.mem_cons, hne]

theorem exists_val_iff_mem_keys {κ : Type} (l : List (κ × Nat)) (k : κ) :
    (∃ v, (k, v) ∈ l) ↔ k ∈ l.map Prod.fst := by
  constructor
  · rintro ⟨v, hv⟩
    exact List.mem_map.mpr ⟨(k, v), hv, rfl⟩
  · intro h
    obtain ⟨⟨k', v⟩, hp, hk⟩ := List.mem_map.mp h
    have hk' : k' = k := hk
    exact ⟨v, hk' ▸ hp⟩

theorem mem_incrementSummation_iff {κ : Type} [DecidableEq κ]
    (l : List (κ × Nat)) (k k' : κ) :
    (∃ v, (k', v) ∈ _incrementSummation l k) ↔ (∃ v, (k', v) ∈ l) ∨ k' = k := by
  rw [exists_val_iff_mem_keys, exists_val_iff_mem_keys, keys_incrementSummation]
  by_cases h : k ∈ l.map Prod.fst
  · simp only [if_pos h]
    constructor
    · exact Or.inl
    · rintro (hk | rfl)
      · exact hk
      · exact h
  · simp [if_neg h]

theorem pos_incrementSummation {κ : Type} [DecidableEq κ]
    (l : List (κ × Nat)) (k : κ) (hl : ∀ p ∈ l, 1 ≤ p.2) :
    ∀ p ∈ _incrementSummation l k, 1 ≤ p.2 := by
  induction l with
  | nil =>
    intro p hp
    simp [_incrementSummation] at hp
    simp [hp]
  | cons hd tl ih =>
    obtain ⟨k₀, v₀⟩ := hd
    intro p hp
    by_cases h : k₀ = k
    · simp only [_incrementSummation, if_pos h] at hp
      rcases List.mem_cons.mp hp with h1 | h1
      · simp [h1, jsIncr_pos]
      · exact hl p (List.mem_cons_of_mem _ h1)
    · simp only [_incrementSummation, if_neg h] at hp
      rcases List.mem_cons.mp hp with h1 | h1
      · exact h1 ▸ hl (k₀, v₀) (by simp)
      · exact ih (fun q hq => hl q (List.mem_cons_of_mem _ hq)) p h1

theorem foldl_mem_iff {κ : Type} [DecidableEq κ] (f : CrashRecord → κ)
    (l : List CrashRecord) (m : List (κ × Nat)) (k : κ) :
    (∃ v, (k, v) ∈ l.foldl (fun acc i => _incrementSummation acc (f i)) m) ↔
      (∃ v, (k, v) ∈ m) ∨ ∃ i ∈ l, f i = k := by
  induction l generalizing m with
  | nil => simp
  | cons i t ih =>
    simp only [List.foldl_cons, ih, mem_incrementSummation_iff]
    constructor
    · rintro (( h | rfl) | ⟨j, hj, rfl⟩)
      · exact Or.inl h
      · exact Or.inr ⟨i, by simp⟩
      · exact Or.inr ⟨j, by simp [hj]⟩
    · rintro (h | ⟨j, hj, rfl⟩)
      · exact Or.inl (Or.inl h)
      · rcases List.mem_cons.mp hj with rfl | hj'
        · exact Or.inl (Or.inr rfl)
        · exact Or.inr ⟨j, hj', rfl⟩

theorem foldl_pos {κ : Type} [DecidableEq κ] (f : CrashRecord → κ)
    (l : List CrashRecord) (m : List (κ × Nat)) (hm : ∀ p ∈ m, 1 ≤ p.2) :
    ∀ p ∈ l.foldl (fun acc i => _incrementSummation acc (f i)) m, 1 ≤ p.2 := by
  induction l generalizing m with
  | nil => exact hm
  | cons i t ih =>
    simp only [List.foldl_cons]
    exact ih _ (pos_incrementSummation _ _ hm)

/-! ## Scalar involvement counters -/

theorem incCounter_eq (o : Option Nat) :
    incCounter o = some (match o with | none => 1 | some 0 => 1 | some (n + 1) => n + 2) := by
  match o with
  | none => rfl
  | some 0 => rfl
  | some (n + 1) => rfl

theorem incCounter_pos (o : Option Nat) (n : Nat) (h : incCounter o = some n) :
    1 ≤ n := by
  match o with
  | none => simp [incCounter] at h; omega
  | some 0 => simp [incCounter] at h; omega
  | some (m + 1) => simp [incCounter] at h; omega

theorem counterFoldl_pos (g : CrashRecord → Bool) (l : List CrashRecord)
    (o : Option Nat) (ho : ∀ n, o = some n → 1 ≤ n) :
    ∀ n, l.foldl (fun acc i => stepCounter (g i) acc) o = some n → 1 ≤ n := by
  induction l generalizing o with
  | nil => exact ho
  | cons i t ih =>
    simp only [List.foldl_cons]
    apply ih
    intro n hn
    unfold stepCounter at hn
    split at hn
    · exact incCounter_pos _ _ hn
    · exact ho n hn

theorem counterFoldl_isSome (g : CrashRecord → Bool) (l : List CrashRecord)
    (o : Option Nat) :
    (l.foldl (fun acc i => stepCounter (g i) acc) o).isSome ↔
      o.isSome ∨ ∃ i ∈ l, g i = true := by
  induction l generalizing o with
  | nil => simp
  | cons i t ih =>
    simp only [List.foldl_cons, ih]
    by_cases h : g i
    · simp [stepCounter, h, incCounter_eq]
    · simp only [stepCounter, h, if_neg]
      simp [h]

theorem foldl_includesPropertyDamage (l : List CrashRecord) (s : CrashStats) :
    (l.foldl stepStats s).includesPropertyDamage =
      l.foldl (fun acc i => stepCounter i.PropertyDamageIndicator acc) s.includesPropertyDamage := by
  induction l generalizing s with
  | nil => rfl
  | cons i t ih => simp [List.foldl_cons, ih, stepStats]

theorem foldl_includesAlcohol (l : List CrashRecord) (s : CrashStats) :
    (l.foldl stepStats s).includesAlcohol =
      l.foldl (fun acc i => stepCounter i.AlcoholInvolved acc) s.includesAlcohol := by
  induction l generalizing s with
  | nil => rfl
  | cons i t ih => simp [List.foldl_cons, ih, stepStats]

theorem foldl_includesAggressiveDriver (l : List CrashRecord) (s : CrashStats) :
    (l.foldl stepStats s).includesAggressiveDriver =
      l.foldl (fun acc i => stepCounter i.AggressiveDriverInvolved acc) s.includesAggressiveDriver := by
  induction l generalizing s with
  | nil => rfl
  | cons i t ih => simp [List.foldl_cons, ih, stepStats]

theorem foldl_includesBicycle (l : List CrashRecord) (s : CrashStats) :
    (l.foldl stepStats s).includesBicycle =
      l.foldl (fun acc i => stepCounter i.BicycleInvolved acc) s.includesBicycle := by
  induction l generalizing s with
  | nil => rfl
  | cons i t ih => simp [List.foldl_cons, ih, stepStats]

theorem foldl_includesCellPhone (l : List CrashRecord) (s : CrashStats) :
    (l.foldl stepStats s).includesCellPhone =
      l.foldl (fun acc i => stepCounter i.CellPhoneInvolved acc) s.includesCellPhone := by
  induction l generalizing s with
  | nil => rfl
  | cons i t ih => simp [List.foldl_cons, ih, stepStats]

theorem foldl_includesAnimal (l : List CrashRecord) (s : CrashStats) :
    (l.foldl stepStats s).includesAnimal =
      l.foldl (fun acc i => stepCounter i.AnimalInvolved acc) s.includesAnimal := by
  induction l generalizing s with
  | nil => rfl
  | cons i t ih => simp [List.foldl_cons, ih, stepStats]

theorem foldl_includesDrugs (l : List CrashRecord) (s : CrashStats) :
    (l.foldl stepStats s).includesDrugs =
      l.foldl (fun acc i => stepCounter i.DrugInvolved acc) s.includesDrugs := by
  induction l generalizing s with
  | nil => rfl
  | cons i t ih => simp [List.foldl_cons, ih, stepStats]

/-! ## Projections of `computeStats` -/

theorem computeStats_totalCrashes (data : List CrashRecord) :
    (computeStats data).totalCrashes = data.length := by
  simp [computeStats, foldl_totalCrashes, initStats]

theorem computeStats_type (data : List CrashRecord) :
    (computeStats data).type =
      data.foldl (fun m i => _incrementSummation m i.CrashType) [] := by
  simp [computeStats, foldl_type, initStats]

theorem computeStats_severity (data : List CrashRecord) :
    (computeStats data).severity =
      data.foldl (fun m i => _incrementSummation m i.CrashSeverity) [] := by
  simp [computeStats, foldl_severity, initStats]

theorem computeStats_month (data : List CrashRecord) :
    (computeStats data).month =
      data.foldl (fun m i => _incrementSummation m (monthKey i.CrashDateandTime)) [] := by
  simp [computeStats, foldl_month, initStats]

theorem computeStats_dayOfWeek (data : List CrashRecord) :
    (computeStats data).dayOfWeek =
      data.foldl (fun m i => _incrementSummation m (dayOfWeekKey i.Dayoftheweek)) [] := by
  simp [computeStats, foldl_dayOfWeek, initStats]

theorem computeStats_hour (data : List CrashRecord) :
    (computeStats data).hour =
      data.foldl (fun m i => _incrementSummation m (hourBucket i.HourofDay)) [] := by
  simp [computeStats, foldl_hour, initStats]

theorem computeStats_intersection (data : List CrashRecord) :
    (computeStats data).intersection =
      data.foldl (fun m i => _incrementSummation m i.CrashLocation) [] := by
  simp [computeStats, foldl_intersection, initStats]

theorem computeStats_intersectionTop10 (data : List CrashRecord) :
    (computeStats data).intersectionTop10 =
      (sortByCountDesc (computeStats data).intersection).take 10 := by
  simp [computeStats]

/-! ## The sort is a permutation -/

theorem insertByCountDesc_perm (x : String × Nat) (l : List (String × Nat)) :
    (insertByCountDesc x l).Perm (x :: l) := by
  induction l with
  | nil => exact List.Perm.refl _
  | cons y ys ih =>
    unfold insertByCountDesc
    split
    · exact (ih.cons y).trans (List.Perm.swap x y ys)
    · exact List.Perm.refl _

theorem sortByCountDesc_perm (l : List (String × Nat)) :
    (sortByCountDesc l).Perm l := by
  induction l with
  | nil => exact List.Perm.refl _
  | cons x xs ih =>
    exact (insertByCountDesc_perm x (sortByCountDesc xs)).trans (ih.cons x)

/-! ## C10: positivity and presence of breakdown entries -/

/-- C10: in the statistics model of any record sequence every stored
count is at least 1 (in all six dimension breakdowns, in the derived
top-10, and in every involvement counter that is present), and a key
is present in a dimension breakdown exactly when some record
contributed it; an involvement counter is present exactly when some
record has the corresponding flag set. -/
theorem computeStats_counts_positive (data : List CrashRecord) :
    (∀ p ∈ (computeStats data).type, 1 ≤ p.2) ∧
    (∀ p ∈ (computeStats data).severity, 1 ≤ p.2) ∧
    (∀ p ∈ (computeStats data).month, 1 ≤ p.2) ∧
    (∀ p ∈ (computeStats data).dayOfWeek, 1 ≤ p.2) ∧
    (∀ p ∈ (computeStats data).hour, 1 ≤ p.2) ∧
    (∀ p ∈ (computeStats data).intersection, 1 ≤ p.2) ∧
    (∀ p ∈ (computeStats data).intersectionTop10, 1 ≤ p.2) ∧
    (∀ k, (∃ v, (k, v) ∈ (computeStats data).type) ↔ ∃ i ∈ data, i.CrashType = k) ∧
    (∀ k, (∃ v, (k, v) ∈ (computeStats data).severity) ↔ ∃ i ∈ data, i.CrashSeverity = k) ∧
    (∀ k, (∃ v, (k, v) ∈ (computeStats data).month) ↔ ∃ i ∈ data, monthKey i.CrashDateandTime = k) ∧
    (∀ k, (∃ v, (k, v) ∈ (computeStats data).dayOfWeek) ↔ ∃ i ∈ data, dayOfWeekKey i.Dayoftheweek = k) ∧
    (∀ k, (∃ v, (k, v) ∈ (computeStats data).hour) ↔ ∃ i ∈ data, hourBucket i.HourofDay = k) ∧
    (∀ k, (∃ v, (k, v) ∈ (computeStats data).intersection) ↔ ∃ i ∈ data, i.CrashLocation = k) ∧
    (∀ n, (computeStats data).includesPropertyDamage = some n → 1 ≤ n) ∧
    (∀ n, (computeStats data).includesAlcohol = some n → 1 ≤ n) ∧
    (∀ n, (computeStats data).includesAggressiveDriver = some n → 1 ≤ n) ∧
    (∀ n, (computeStats data).includesBicycle = some n → 1 ≤ n) ∧
    (∀ n, (computeStats data).includesCellPhone = some n → 1 ≤ n) ∧
    (∀ n, (computeStats data).includesAnimal = some n → 1 ≤ n) ∧
    (∀ n, (computeStats data).includesDrugs = some n → 1 ≤ n) ∧
    ((computeStats data).includesPropertyDamage.isSome ↔ ∃ i ∈ data, i.PropertyDamageIndicator = true) ∧
    ((computeStats data).includesAlcohol.isSome ↔ ∃ i ∈ data, i.AlcoholInvolved = true) ∧
    ((computeStats data).includesAggressiveDriver.isSome ↔ ∃ i ∈ data, i.AggressiveDriverInvolved = true) ∧
    ((computeStats data).includesBicycle.isSome ↔ ∃ i ∈ data, i.BicycleInvolved = true) ∧
    ((computeStats data).includesCellPhone.isSome ↔ ∃ i ∈ data, i.CellPhoneInvolved = true) ∧
    ((computeStats data).includesAnimal.isSome ↔ ∃ i ∈ data, i.AnimalInvolved = true) ∧
    ((computeStats data).includesDrugs.isSome ↔ ∃ i ∈ data, i.DrugInvolved = true) := by
  have hcomp : computeStats data =
      { data.foldl stepStats (initStats data.length) with
        intersectionTop10 :=
          (sortByCountDesc (data.foldl stepStats (initStats data.length)).intersection).take 10 } := rfl
  refine ⟨?_, ?_, ?_, ?_, ?_, ?_, ?_, ?_, ?_, ?_, ?_, ?_, ?_, ?_, ?_, ?_, ?_,
    ?_, ?_, ?_, ?_, ?_, ?_, ?_, ?_, ?_, ?_⟩
  · rw [computeStats_type]; exact foldl_pos _ data [] (by simp)
  · rw [computeStats_severity]; exact foldl_pos _ data [] (by simp)
  · rw [computeStats_month]; exact foldl_pos _ data [] (by simp)
  · rw [computeStats_dayOfWeek]; exact foldl_pos _ data [] (by simp)
  · rw [computeStats_hour]; exact foldl_pos _ data [] (by simp)
  · rw [computeStats_intersection]; exact foldl_pos _ data [] (by simp)
  · intro p hp
    rw [computeStats_intersectionTop10] at hp
    have hp' : p ∈ sortByCountDesc (computeStats data).intersection :=
      List.mem_of_mem_take hp
    have hp'' : p ∈ (computeStats data).intersection :=
      (sortByCountDesc_perm _).mem_iff.mp hp'
    rw [computeStats_intersection] at hp''
    exact foldl_pos _ data [] (by simp) p hp''
  · intro k; rw [computeStats_type, foldl_mem_iff]; simp
  · intro k; rw [computeStats_severity, foldl_mem_iff]; simp
  · intro k; rw [computeStats_month, foldl_mem_iff]; simp
  · intro k; rw [computeStats_dayOfWeek, foldl_mem_iff]; simp
  · intro k; rw [computeStats_hour, foldl_mem_iff]; simp
  · intro k; rw [computeStats_intersection, foldl_mem_iff]; simp
  · rw [hcomp]; simp only [foldl_includesPropertyDamage]
    exact counterFoldl_pos _ data none (by simp)
  · rw [hcomp]; simp only [foldl_includesAlcohol]
    exact counterFoldl_pos _ data none (by simp)
  · rw [hcomp]; simp only [foldl_includesAggressiveDriver]
    exact counterFoldl_pos _ data none (by simp)
  · rw [hcomp]; simp only [foldl_includesBicycle]
    exact counterFoldl_pos _ data none (by simp)
  · rw [hcomp]; simp only [foldl_includesCellPhone]
    exact counterFoldl_pos _ data none (by simp)
  · rw [hcomp]; simp only [foldl_includesAnimal]
    exact counterFoldl_pos _ data none (by simp)
  · rw [hcomp]; simp only [foldl_includesDrugs]
    exact counterFoldl_pos _ data none (by simp)
  · rw [hcomp]; simp only [foldl_includesPropertyDamage]
    rw [counterFoldl_isSome]; simp [initStats]
  · rw [hcomp]; simp only [foldl_includesAlcohol]
    rw [counterFoldl_isSome]; simp [initStats]
  · rw [hcomp]; simp only [foldl_includesAggressiveDriver]
    rw [counterFoldl_isSome]; simp [initStats]
  · rw [hcomp]; simp only [foldl_includesBicycle]
    rw [counterFoldl_isSome]; simp [initStats]
  · rw [hcomp]; simp only [foldl_includesCellPhone]
    rw [counterFoldl_isSome]; simp [initStats]
  · rw [hcomp]; simp only [foldl_includesAnimal]
    rw [counterFoldl_isSome]; simp [initStats]
  · rw [hcomp]; simp only [foldl_includesDrugs]
    rw [counterFoldl_isSome]; simp [initStats]

/-! ## C5: earliest / latest crash dates -/

theorem foldl_earliest (l : List CrashRecord) (s : CrashStats) :
    (l.foldl stepStats s).earliestCrashDate =
      l.foldl (fun o i => minDateFold o i.CrashDateandTime) s.earliestCrashDate := by
  induction l generalizing s with
  | nil => rfl
  | cons i t ih => simp [List.foldl_cons, ih, stepStats, minDateFold]

theorem foldl_latest (l : List CrashRecord) (s : CrashStats) :
    (l.foldl stepStats s).latestCrashDate =
      l.foldl (fun o i => maxDateFold o i.CrashDateandTime) s.latestCrashDate := by
  induction l generalizing s with
  | nil => rfl
  | cons i t ih => simp [List.foldl_cons, ih, stepStats, maxDateFold]

theorem computeStats_earliest (data : List CrashRecord) :
    (computeStats data).earliestCrashDate =
      (data.map CrashRecord.CrashDateandTime).foldl minDateFold none := by
  simp [computeStats, foldl_earliest, initStats, List.foldl_map]

theorem computeStats_latest (data : List CrashRecord) :
    (computeStats data).latestCrashDate =
      (data.map CrashRecord.CrashDateandTime).foldl maxDateFold none := by
  simp [computeStats, foldl_latest, initStats, List.foldl_map]

theorem minDateFold_some (e d : Int) : minDateFold (some e) d = some (min e d) := by
  show (if d < e then some d else some e) = some (min e d)
  rcases lt_or_le d e with h | h
  · rw [if_pos h, min_eq_right h.le]
  · rw [if_neg (not_lt.mpr h), min_eq_left h]

theorem maxDateFold_some (e d : Int) : maxDateFold (some e) d = some (max e d) := by
  show (if d > e then some d else some e) = some (max e d)
  rcases lt_or_le e d with h | h
  · rw [if_pos h, max_eq_right h.le]
  · rw [if_neg (not_lt.mpr h), max_eq_left h]

theorem foldl_minDateFold_some (l : List Int) (a : Int) :
    l.foldl minDateFold (some a) = some (l.foldl min a) := by
  induction l generalizing a with
  | nil => rfl
  | cons d t ih => simp [List.foldl_cons, minDateFold_some, ih]

theorem foldl_maxDateFold_some (l : List Int) (a : Int) :
    l.foldl maxDateFold (some a) = some (l.foldl max a) := by
  induction l generalizing a with
  | nil => rfl
  | cons d t ih => simp [List.foldl_cons, maxDateFold_some, ih]

theorem foldl_min_le_init (l : List Int) (a : Int) : l.foldl min a ≤ a := by
  induction l generalizing a with
  | nil => exact le_refl a
  | cons d t ih => exact (ih (min a d)).trans (min_le_left a d)

theorem foldl_min_le_mem (l : List Int) (a : Int) :
    ∀ d ∈ l, l.foldl min a ≤ d := by
  induction l generalizing a with
  | nil => intro d hd; simp at hd
  | cons d' t ih =>
    intro d hd
    rcases List.mem_cons.mp hd with rfl | hd'
    · exact (foldl_min_le_init t (min a d)).trans (min_le_right a d)
    · exact ih (min a d') d hd'

theorem foldl_max_ge_init (l : List Int) (a : Int) : a ≤ l.foldl max a := by
  induction l generalizing a with
  | nil => exact le_refl a
  | cons d t ih => exact (le_max_left a d).trans (ih (max a d))

theorem foldl_max_ge_mem (l : List Int) (a : Int) :
    ∀ d ∈ l, d ≤ l.foldl max a := by
  induction l generalizing a with
  | nil => intro d hd; simp at hd
  | cons d' t ih =>
    intro d hd
    rcases List.mem_cons.mp hd with rfl | hd'
    · exact (le_max_right a d).trans (foldl_max_ge_init t (max a d))
    · exact ih (max a d') d hd'

/-- C5: on the empty record sequence `computeStats` leaves both dates
unset and reports zero crashes; on a non-empty sequence both dates are
set, the earliest is at most the latest, and they bound every record's
crash timestamp. -/
theorem computeStats_date_bounds (data : List CrashRecord) :
    (data = [] → (computeStats data).earliestCrashDate = none ∧
      (computeStats data).latestCrashDate = none ∧
      (computeStats data).totalCrashes = 0) ∧
    (data ≠ [] → ∃ e L, (computeStats data).earliestCrashDate = some e ∧
      (computeStats data).latestCrashDate = some L ∧ e ≤ L ∧
      ∀ r ∈ data, e ≤ r.CrashDateandTime ∧ r.CrashDateandTime ≤ L) := by
  constructor
  · rintro rfl
    refine ⟨?_, ?_, ?_⟩
    · rw [computeStats_earliest]; rfl
    · rw [computeStats_latest]; rfl
    · rw [computeStats_totalCrashes]; rfl
  · intro hne
    match data, hne with
    | r :: rest, _ =>
      refine ⟨(rest.map CrashRecord.CrashDateandTime).foldl min r.CrashDateandTime,
        (rest.map CrashRecord.CrashDateandTime).foldl max r.CrashDateandTime, ?_, ?_, ?_, ?_⟩
      · rw [computeStats_earliest]
        simp [List.foldl_cons, minDateFold, foldl_minDateFold_some]
      · rw [computeStats_latest]
        simp [List.foldl_cons, maxDateFold, foldl_maxDateFold_some]
      · exact (foldl_min_le_init _ _).trans (foldl_max_ge_init _ _)
      · intro q hq
        rcases List.mem_cons.mp hq with rfl | hq'
        · exact ⟨foldl_min_le_init _ _, foldl_max_ge_init _ _⟩
        · have hmem : q.CrashDateandTime ∈ rest.map CrashRecord.CrashDateandTime :=
            List.mem_map_of_mem _ hq'
          exact ⟨foldl_min_le_mem _ _ _ hmem, foldl_max_ge_mem _ _ _ hmem⟩

/-- Witness for C5 at a concrete two-record input. -/
theorem computeStats_date_bounds_witness :
    ∃ e L, (computeStats [sampleRecord, sampleRecord2]).earliestCrashDate = some e ∧
      (computeStats [sampleRecord, sampleRecord2]).latestCrashDate = some L ∧ e ≤ L ∧
      ∀ r ∈ [sampleRecord, sampleRecord2],
        e ≤ r.CrashDateandTime ∧ r.CrashDateandTime ≤ L :=
  (computeStats_date_bounds [sampleRecord, sampleRecord2]).2 (List.cons_ne_nil _ _)

/-- Witness for C10 at a concrete input: the sample record's crash
type is a key of the `type` breakdown, and its alcohol flag makes the
alcohol counter present. -/
theorem computeStats_counts_positive_witness :
    (∃ v, (("Angle" : String), v) ∈ (computeStats [sampleRecord]).type) ∧
    (computeStats [sampleRecord]).includesAlcohol.isSome = true ∧
    (∀ n, (computeStats [sampleRecord]).includesAlcohol = some n → 1 ≤ n) := by
  obtain ⟨-, -, -, -, -, -, -, htype, -, -, -, -, -, -, halcpos, -, -, -, -, -,
    -, halc, -, -, -, -, -⟩ := computeStats_counts_positive [sampleRecord]
  refine ⟨(htype "Angle").mpr ⟨sampleRecord, by simp, rfl⟩, ?_, halcpos⟩
  exact halc.mpr ⟨sampleRecord, by simp, rfl⟩

/-! ## C6: the intersection top-10 -/

theorem mem_insertByCountDesc {x z : String × Nat} {l : List (String × Nat)} :
    z ∈ insertByCountDesc x l ↔ z = x ∨ z ∈ l := by
  rw [(insertByCountDesc_perm x l).mem_iff, List.mem_cons]

theorem sorted_insertByCountDesc (x : String × Nat) (l : List (String × Nat))
    (hl : List.Pairwise (fun a b : String × Nat => b.2 ≤ a.2) l) :
    List.Pairwise (fun a b : String × Nat => b.2 ≤ a.2) (insertByCountDesc x l) := by
  induction l with
  | nil => simp [insertByCountDesc]
  | cons y ys ih =>
    unfold insertByCountDesc
    rcases List.pairwise_cons.mp hl with ⟨hy, hys⟩
    split
    · rename_i hxy
      refine List.pairwise_cons.mpr ⟨?_, ih hys⟩
      intro z hz
      rcases mem_insertByCountDesc.mp hz with rfl | hz'
      · exact hxy.le
      · exact hy z hz'
    · rename_i hxy
      refine List.pairwise_cons.mpr ⟨?_, hl⟩
      intro z hz
      rcases List.mem_cons.mp hz with rfl | hz'
      · omega
      · exact le_trans (hy z hz') (by omega)

theorem sorted_sortByCountDesc (l : List (String × Nat)) :
    List.Pairwise (fun a b : String × Nat => b.2 ≤ a.2) (sortByCountDesc l) := by
  induction l with
  | nil => simp [sortByCountDesc]
  | cons x xs ih => exact sorted_insertByCountDesc x _ ih

theorem filter_insertByCountDesc (x : String × Nat) (l : List (String × Nat)) (c : Nat) :
    (insertByCountDesc x l).filter (fun p => p.2 == c) =
      if x.2 = c then x :: l.filter (fun p => p.2 == c)
      else l.filter (fun p => p.2 == c) := by
  induction l with
  | nil =>
    by_cases h : x.2 = c <;> simp [insertByCountDesc, List.filter_cons, h]
  | cons y ys ih =>
    unfold insertByCountDesc
    split
    · rename_i hxy
      by_cases hx : x.2 = c
      · have hy : ¬ y.2 = c := by omega
        simp [List.filter_cons, hx, hy, ih]
      · simp only [List.filter_cons, ih, if_neg hx]
    · rename_i hxy
      by_cases hx : x.2 = c <;> simp [List.filter_cons, hx]

theorem filter_sortByCountDesc (l : List (String × Nat)) (c : Nat) :
    (sortByCountDesc l).filter (fun p => p.2 == c) =
      l.filter (fun p => p.2 == c) := by
  induction l with
  | nil => rfl
  | cons x xs ih =>
    show (insertByCountDesc x (sortByCountDesc xs)).filter _ = _
    rw [filter_insertByCountDesc]
    by_cases hx : x.2 = c
    · simp [List.filter_cons, hx, ih]
    · simp [List.filter_cons, hx, ih]

/-- C6: the derived top-10 has at most 10 entries; each entry is an
entry of the full intersection breakdown (same key, same count); it is
ordered by count descending; every entry left out of the top-10 has a
count at most that of every retained entry; and the sort is stable on
the count only — for every count value, the sorted entry list's
entries with that count are exactly the breakdown's entries with that
count, in the breakdown's own (encounter) order, with no secondary
alphabetical reordering. -/
theorem computeStats_intersectionTop10_spec (data : List CrashRecord) :
    (computeStats data).intersectionTop10.length ≤ 10 ∧
    (∀ p ∈ (computeStats data).intersectionTop10, p ∈ (computeStats data).intersection) ∧
    List.Pairwise (fun a b : String × Nat => b.2 ≤ a.2)
      (computeStats data).intersectionTop10 ∧
    (∀ p ∈ (computeStats data).intersectionTop10,
      ∀ q ∈ (sortByCountDesc (computeStats data).intersection).drop 10, q.2 ≤ p.2) ∧
    (∀ c : Nat, (sortByCountDesc (computeStats data).intersection).filter (fun p => p.2 == c) =
      (computeStats data).intersection.filter (fun p => p.2 == c)) ∧
    (computeStats data).intersectionTop10 =
      (sortByCountDesc (computeStats data).intersection).take 10 := by
  have htop := computeStats_intersectionTop10 data
  have hsorted := sorted_sortByCountDesc (computeStats data).intersection
  have hsplit := List.take_append_drop 10 (sortByCountDesc (computeStats data).intersection)
  have hpair :
      ∀ p ∈ (sortByCountDesc (computeStats data).intersection).take 10,
        ∀ q ∈ (sortByCountDesc (computeStats data).intersection).drop 10, q.2 ≤ p.2 := by
    have := hsplit ▸ hsorted
    exact (List.pairwise_append.mp this).2.2
  refine ⟨?_, ?_, ?_, ?_, ?_, htop⟩
  · rw [htop]; exact List.length_take_le 10 _
  · intro p hp
    rw [htop] at hp
    exact (sortByCountDesc_perm _).mem_iff.mp (List.mem_of_mem_take hp)
  · rw [htop]
    exact hsorted.sublist (List.take_sublist 10 _)
  · intro p hp
    rw [htop] at hp
    exact hpair p hp
  · exact filter_sortByCountDesc _

/-- Witness for C6 at a concrete three-record input: the location seen
twice tops the ranking, and its top-10 entry carries its true count. -/
theorem computeStats_intersectionTop10_spec_witness :
    (("Elm St & Oak St" : String), 2) ∈
      (computeStats [sampleRecord, sampleRecord2, sampleRecord]).intersection ∧
    (computeStats [sampleRecord, sampleRecord2, sampleRecord]).intersectionTop10 =
      [("Elm St & Oak St", 2), ("Division Ave & Fulton St", 1)] := by
  obtain ⟨-, hmem, -, -, -, -⟩ :=
    computeStats_intersectionTop10_spec [sampleRecord, sampleRecord2, sampleRecord]
  refine ⟨hmem ("Elm St & Oak St", 2) (by decide), by decide⟩

/-- Witness for C2: surjectivity of the bucket map at bucket 0. -/
theorem hourBucket_bijective_witness :
    ∃ a : Fin 24, hourBucketFin a = ⟨0, by norm_num⟩ :=
  hourBucket_bijective.1.2 ⟨0, by norm_num⟩

/-! ## C3: load failure handling -/

/-- C3 fails as stated: `_rejectPromiseError` ignores its
`contextMessage` argument, so the rejection value for a stream-read
failure and for an end-of-stream failure with the same error are
identical — the surfaced error carries nothing identifying the failing
phase, only the unchanged error itself. -/
theorem loadCrashData_context_counterexample :
    loadCrashData (.failure .streamRead ⟨"boom"⟩) =
      loadCrashData (.failure .endResolution ⟨"boom"⟩) ∧
    loadCrashData (.failure .streamRead ⟨"boom"⟩) = .error ⟨"boom"⟩ :=
  ⟨rfl, rfl⟩

/-- C3 (amended): on any stream failure, in any phase, the load
rejects with the triggering error unchanged (the phase context message
passed to `_rejectPromiseError` is discarded), and no row sequence —
hence no Statistics Model — is produced. -/
theorem loadCrashData_failure_aborts (phase : StreamPhase) (err : JsError) :
    loadCrashData (.failure phase err) = .error err ∧
    ∀ rows, loadCrashData (.failure phase err) ≠ .ok rows := by
  refine ⟨rfl, fun rows h => ?_⟩
  simp [loadCrashData, _rejectPromiseError] at h

/-- Witness for C3 at a concrete failure. -/
theorem loadCrashData_failure_aborts_witness :
    loadCrashData (.failure .rowDecode ⟨"disk error"⟩) = .error ⟨"disk error"⟩ ∧
    loadCrashData (.failure .rowDecode ⟨"disk error"⟩) ≠ .ok [] :=
  ⟨(loadCrashData_failure_aborts .rowDecode ⟨"disk error"⟩).1,
    (loadCrashData_failure_aborts .rowDecode ⟨"disk error"⟩).2 []⟩

/-! ## C7: value normalization -/

/-- C7: on non-location fields the normalizer sends `"Yes"`/`"yes"` to
`true`, `"No"`/`"no"` to `false`, `"42"` to the number 42, `"42.5"` to
the number 42.5, keeps a whitespace-only string as a string, checks
the location rule before numeric parsing (a numeric-looking value of
the location field stays a string), and keeps every value matching no
rule unchanged. -/
theorem mapValues_spec :
    mapValues "CrashSeverity" "Yes" = .bool true ∧
    mapValues "CrashSeverity" "yes" = .bool true ∧
    mapValues "CrashSeverity" "No" = .bool false ∧
    mapValues "CrashSeverity" "no" = .bool false ∧
    mapValues "NumberofUnits" "42" = .num (.finite 42) ∧
    mapValues "NumberofUnits" "42.5" = .num (.finite (85 / 2 : ℚ)) ∧
    mapValues "Comments" "  " = .str "  " ∧
    mapValues CRASH_LOCATION_HEADER "42" = .str (normalizeCrashLocation "42") ∧
    ∀ hd v, hd ≠ CRASH_LOCATION_HEADER → jsToLowerCase v ≠ "yes" →
      jsToLowerCase v ≠ "no" → _isNumeric v = false → mapValues hd v = .str v := by
  have d42 : digitsToNat ['4', '2'] = 42 := by decide
  have d5 : digitsToNat ['5'] = 5 := by decide
  have d0 : digitsToNat [] = 0 := by decide
  have m42 : mantissaQ ['4', '2'] [] = 42 := by
    rw [mantissaQ, d42, d0]; norm_num
  have m425 : mantissaQ ['4', '2'] ['5'] = 85 / 2 := by
    rw [mantissaQ, d42, d5]; norm_num
  have n42 : jsStringToNumber "42" = some (.finite (mantissaQ ['4', '2'] [])) := rfl
  have n425 : jsStringToNumber "42.5" = some (.finite (mantissaQ ['4', '2'] ['5'])) := rfl
  refine ⟨by decide, by decide, by decide, by decide, ?_, ?_, by decide, ?_, ?_⟩
  · simp +decide [mapValues, n42, m42]
  · simp +decide [mapValues, n425, m425]
  · simp [mapValues]
  · intro hd v h1 h2 h3 h4
    simp [mapValues, h1, h2, h3, h4]

/-- Witness for C7: the residual keep-as-is clause at a concrete
non-location, non-boolean, non-numeric value. -/
theorem mapValues_spec_witness :
    mapValues "CrashType" "Rear End" = .str "Rear End" :=
  mapValues_spec.2.2.2.2.2.2.2.2 "CrashType" "Rear End"
    (by decide) (by decide) (by decide) (by decide)

/-! ## C4: crash-location canonicalization

Equation lemmas for the two well-founded definitions, identity of the
collapse/trim stages on clean input, the splitting lemma, order facts
for the default string sort, and the commutativity result. -/

theorem collapseWhitespaceRuns_nil : collapseWhitespaceRuns [] = [] := by
  rw [collapseWhitespaceRuns]

theorem collapseWhitespaceRuns_one (c : Char) : collapseWhitespaceRuns [c] = [c] := by
  rw [collapseWhitespaceRuns]

theorem collapseWhitespaceRuns_cons₂ (c d : Char) (rest : List Char) :
    collapseWhitespaceRuns (c :: d :: rest) =
      if jsIsWhitespace c ∧ jsIsWhitespace d then
        ' ' :: collapseWhitespaceRuns (rest.dropWhile jsIsWhitespace)
      else c :: collapseWhitespaceRuns (d :: rest) := by
  rw [collapseWhitespaceRuns]

theorem splitOnAmp_nil : splitOnAmp [] = [[]] := by rw [splitOnAmp]

theorem splitOnAmp_cons (c : Char) (rest : List Char) :
    splitOnAmp (c :: rest) =
      if c = ' ' ∧ rest.take 2 = ['&', ' '] then [] :: splitOnAmp (rest.drop 2)
      else match splitOnAmp rest with
        | [] => [[c]]
        | hd :: t => (c :: hd) :: t := by
  rw [splitOnAmp]

theorem collapseWhitespaceRuns_eq_self :
    ∀ (n : Nat) (l : List Char), l.length ≤ n → l.Chain' noDoubleWs →
      collapseWhitespaceRuns l = l := by
  intro n
  induction n with
  | zero =>
    intro l hl _
    have : l = [] := List.length_eq_zero.mp (Nat.le_zero.mp hl)
    rw [this, collapseWhitespaceRuns_nil]
  | succ n ih =>
    intro l hl hchain
    match l with
    | [] => exact collapseWhitespaceRuns_nil
    | [c] => exact collapseWhitespaceRuns_one c
    | c :: d :: rest =>
      have hcd : noDoubleWs c d := (List.chain'_cons.mp hchain).1
      have hcond : ¬ (jsIsWhitespace c ∧ jsIsWhitespace d) := by
        rcases hcd with h | h <;> simp [h]
      rw [collapseWhitespaceRuns_cons₂, if_neg hcond]
      have htail : (d :: rest).Chain' noDoubleWs := (List.chain'_cons.mp hchain).2
      have hlen : (d :: rest).length ≤ n := by
        simp at hl ⊢; omega
      rw [ih (d :: rest) hlen htail]

theorem jsTrim_eq_self (l : List Char)
    (h1 : ∀ c ∈ l.head?, jsIsWhitespace c = false)
    (h2 : ∀ c ∈ l.getLast?, jsIsWhitespace c = false) :
    jsTrim l = l := by
  unfold jsTrim
  have e1 : l.dropWhile jsIsWhitespace = l := by
    cases l with
    | nil => rfl
    | cons a t =>
      rw [List.dropWhile_cons, if_neg]
      simp [h1 a rfl]
  rw [e1]
  have e2 : l.reverse.dropWhile jsIsWhitespace = l.reverse := by
    cases hr : l.reverse with
    | nil => rfl
    | cons a t =>
      have ha : l.getLast? = some a := by
        rw [← List.head?_reverse, hr]; rfl
      rw [List.dropWhile_cons, if_neg]
      simp [h2 a ha]
  rw [e2, List.reverse_reverse]

theorem splitOnAmp_of_not_amp (B : List Char) (hB : '&' ∉ B) :
    splitOnAmp B = [B] := by
  induction B with
  | nil => exact splitOnAmp_nil
  | cons c B' ih =>
    have hB' : '&' ∉ B' := fun h => hB (List.mem_cons_of_mem _ h)
    have hcond : ¬ (c = ' ' ∧ B'.take 2 = ['&', ' ']) := by
      rintro ⟨-, htake⟩
      apply hB
      cases B' with
      | nil => simp at htake
      | cons b B'' =>
        have : b = '&' := by simp [List.take] at htake; exact htake.1
        exact this ▸ List.mem_cons_of_mem _ (List.mem_cons_self b B'')
    rw [splitOnAmp_cons, if_neg hcond, ih hB']

theorem splitOnAmp_sep (A B : List Char) (hA : '&' ∉ A) :
    splitOnAmp (A ++ ' ' :: '&' :: ' ' :: B) = A :: splitOnAmp B := by
  induction A with
  | nil =>
    rw [List.nil_append, splitOnAmp_cons, if_pos (by simp)]
    rfl
  | cons c A' ih =>
    have hA' : '&' ∉ A' := fun h => hA (List.mem_cons_of_mem _ h)
    have hcond : ¬ (c = ' ' ∧ (A' ++ ' ' :: '&' :: ' ' :: B).take 2 = ['&', ' ']) := by
      rintro ⟨rfl, htake⟩
      cases A' with
      | nil => simp [List.take] at htake
      | cons a A'' =>
        have : a = '&' := by simp [List.take] at htake; exact htake.1
        exact hA (this ▸ List.mem_cons_of_mem _ (List.mem_cons_self a A''))
    rw [List.cons_append, splitOnAmp_cons, if_neg hcond, ih hA']

theorem strLt_asymm : ∀ a b : List Char, strLt a b = true → strLt b a = false := by
  intro a
  induction a with
  | nil =>
    intro b hb
    cases b with
    | nil => simp [strLt] at hb
    | cons c cs => simp [strLt]
  | cons x xs ih =>
    intro b hb
    cases b with
    | nil => simp [strLt] at hb
    | cons y ys =>
      rcases lt_trichotomy x y with h | h | h
      · simp [strLt, h, not_lt.mpr h.le, lt_asymm h]
      · subst h
        simp [strLt, lt_irrefl] at hb ⊢
        exact ih ys hb
      · simp [strLt, h, not_lt.mpr h.le, lt_asymm h] at hb

theorem strLt_trichotomy : ∀ a b : List Char,
    strLt a b = true ∨ a = b ∨ strLt b a = true := by
  intro a
  induction a with
  | nil =>
    intro b
    cases b with
    | nil => exact Or.inr (Or.inl rfl)
    | cons c cs => exact Or.inl (by simp [strLt])
  | cons x xs ih =>
    intro b
    cases b with
    | nil => exact Or.inr (Or.inr (by simp [strLt]))
    | cons y ys =>
      rcases lt_trichotomy x y with h | h | h
      · exact Or.inl (by simp [strLt, h])
      · subst h
        rcases ih ys with h' | h' | h'
        · exact Or.inl (by simp [strLt, lt_irrefl, h'])
        · exact Or.inr (Or.inl (by rw [h']))
        · exact Or.inr (Or.inr (by simp [strLt, lt_irrefl, h']))
      · exact Or.inr (Or.inr (by simp [strLt, h]))

theorem jsSortStrings_pair (A B : List Char) :
    jsSortStrings [A, B] = if strLt B A then [B, A] else [A, B] := by
  show insertStr A (insertStr B (jsSortStrings [])) = _
  show insertStr A [B] = _
  unfold insertStr
  split <;> rfl

theorem jsSortStrings_pair_comm (A B : List Char) :
    jsSortStrings [A, B] = jsSortStrings [B, A] := by
  rw [jsSortStrings_pair, jsSortStrings_pair]
  rcases strLt_trichotomy A B with h | h | h
  · rw [if_neg (by simp [strLt_asymm A B h]), if_pos h]
  · rw [h]
  · rw [if_pos h, if_neg (by simp [strLt_asymm B A h])]

theorem joinAmp_pair (X Y : List Char) :
    joinAmp [X, Y] = X ++ ' ' :: '&' :: ' ' :: Y := rfl

theorem chain'_sep (A B : List Char) (hA : cleanStreetName A) (hB : cleanStreetName B) :
    (A ++ ' ' :: '&' :: ' ' :: B).Chain' noDoubleWs := by
  obtain ⟨-, -, -, hAlast, hAchain⟩ := hA
  obtain ⟨-, -, hBhead, -, hBchain⟩ := hB
  apply List.chain'_append.mpr
  refine ⟨hAchain, ?_, ?_⟩
  · apply List.chain'_cons'.mpr
    refine ⟨fun y hy => ?_, ?_⟩
    · simp at hy; subst hy; exact Or.inr (by decide)
    · apply List.chain'_cons'.mpr
      refine ⟨fun y hy => ?_, ?_⟩
      · simp at hy; subst hy; exact Or.inl (by decide)
      · apply List.chain'_cons'.mpr
        exact ⟨fun y hy => Or.inr (hBhead y hy), hBchain⟩
  · intro x hx y hy
    simp at hy; subst hy
    exact Or.inl (hAlast x hx)

theorem normalizeLoc_list (A B : List Char)
    (hA : cleanStreetName A) (hB : cleanStreetName B) :
    joinAmp (jsSortStrings (splitOnAmp (jsTrim
      (collapseWhitespaceRuns (A ++ ' ' :: '&' :: ' ' :: B))))) =
      joinAmp (jsSortStrings [A, B]) := by
  have hcoll := collapseWhitespaceRuns_eq_self
    (A ++ ' ' :: '&' :: ' ' :: B).length _ le_rfl (chain'_sep A B hA hB)
  rw [hcoll]
  have hhead : ∀ c ∈ (A ++ ' ' :: '&' :: ' ' :: B).head?, jsIsWhitespace c = false := by
    intro c hc
    match A, hA with
    | a :: A', hA =>
      simp only [List.cons_append, List.head?_cons, Option.mem_def,
        Option.some.injEq] at hc
      subst hc
      exact hA.2.2.1 _ rfl
  have hlast : ∀ c ∈ (A ++ ' ' :: '&' :: ' ' :: B).getLast?, jsIsWhitespace c = false := by
    obtain ⟨x, hx⟩ := Option.isSome_iff_exists.mp (List.getLast?_isSome.mpr hB.1)
    have hBlast : (' ' :: '&' :: ' ' :: B).getLast? = some x := by
      show ([' ', '&', ' '] ++ B).getLast? = some x
      rw [List.getLast?_append, hx]
      rfl
    intro c hc
    rw [List.getLast?_append, hBlast] at hc
    simp at hc
    subst hc
    exact hB.2.2.2.1 x hx
  rw [jsTrim_eq_self _ hhead hlast,
    splitOnAmp_sep A B hA.2.1,
    splitOnAmp_of_not_amp B hB.2.1]

/-- C4 fails as stated: with the degenerate street name `""`,
normalizing `" & Oak St"` and `"Oak St & "` produce different keys (the
separator is never found after the trim, so no sorting happens). -/
theorem normalizeCrashLocation_comm_counterexample :
    ("" ++ " & " ++ "Oak St" : String) = " & Oak St" ∧
    ("Oak St" ++ " & " ++ "" : String) = "Oak St & " ∧
    normalizeCrashLocation " & Oak St" = "& Oak St" ∧
    normalizeCrashLocation "Oak St & " = "Oak St &" ∧
    normalizeCrashLocation " & Oak St" ≠ normalizeCrashLocation "Oak St & " := by
  have h1 : (" & Oak St" : String).data =
      [' ', '&', ' ', 'O', 'a', 'k', ' ', 'S', 't'] := rfl
  have h2 : ("Oak St & " : String).data =
      ['O', 'a', 'k', ' ', 'S', 't', ' ', '&', ' '] := rfl
  have e1 : normalizeCrashLocation " & Oak St" = "& Oak St" := by
    simp +decide [normalizeCrashLocation, h1, collapseWhitespaceRuns_cons₂,
      collapseWhitespaceRuns_one, collapseWhitespaceRuns_nil, jsTrim,
      splitOnAmp_cons, splitOnAmp_nil, jsSortStrings, insertStr, joinAmp]
  have e2 : normalizeCrashLocation "Oak St & " = "Oak St &" := by
    simp +decide [normalizeCrashLocation, h2, collapseWhitespaceRuns_cons₂,
      collapseWhitespaceRuns_one, collapseWhitespaceRuns_nil, jsTrim,
      splitOnAmp_cons, splitOnAmp_nil, jsSortStrings, insertStr, joinAmp]
  refine ⟨by decide, by decide, e1, e2, ?_⟩
  rw [e1, e2]
  decide

/-- C4 (amended): for street names that are non-empty, contain no
ampersand, and have no leading, trailing or doubled whitespace,
canonicalization treats the intersection as an unordered pair:
`"A & B"` and `"B & A"` normalize to the identical key, namely the two
names in ascending JS string order rejoined with `" & "`. -/
theorem normalizeCrashLocation_unordered_pair (A B : String)
    (hA : cleanStreetName A.data) (hB : cleanStreetName B.data) :
    normalizeCrashLocation (A ++ " & " ++ B) = normalizeCrashLocation (B ++ " & " ++ A) ∧
    normalizeCrashLocation (A ++ " & " ++ B) =
      (if strLt B.data A.data then B ++ " & " ++ A else A ++ " & " ++ B) := by
  have hdata : ∀ X Y : String, (X ++ " & " ++ Y).data =
      X.data ++ ' ' :: '&' :: ' ' :: Y.data := by
    intro X Y
    show (X.data ++ [' ', '&', ' ']) ++ Y.data = _
    rw [List.append_assoc]
    rfl
  have hnorm : ∀ X Y : String, cleanStreetName X.data → cleanStreetName Y.data →
      normalizeCrashLocation (X ++ " & " ++ Y) =
        ⟨joinAmp (jsSortStrings [X.data, Y.data])⟩ := by
    intro X Y hX hY
    unfold normalizeCrashLocation
    rw [hdata, normalizeLoc_list X.data Y.data hX hY]
  constructor
  · rw [hnorm A B hA hB, hnorm B A hB hA, jsSortStrings_pair_comm]
  · rw [hnorm A B hA hB, jsSortStrings_pair]
    by_cases h : strLt B.data A.data = true
    · rw [if_pos h, if_pos h]
      apply congrArg String.mk
      rw [joinAmp_pair]
      simp
    · rw [if_neg h, if_neg h]
      apply congrArg String.mk
      rw [joinAmp_pair]
      simp

/-- Witness for C4 at the spec's own example pair. -/
theorem normalizeCrashLocation_unordered_pair_witness :
    normalizeCrashLocation ("Elm St" ++ " & " ++ "Oak St") =
      normalizeCrashLocation ("Oak St" ++ " & " ++ "Elm St") ∧
    normalizeCrashLocation ("Elm St" ++ " & " ++ "Oak St") =
      "Elm St" ++ " & " ++ "Oak St" := by
  have hE : cleanStreetName ("Elm St" : String).data := by
    refine ⟨by decide, by decide, ?_, ?_, ?_⟩
    · intro c hc; simp at hc; subst hc; decide
    · intro c hc; simp [List.getLast?] at hc; subst hc; decide
    · simp +decide [List.chain'_cons, List.chain'_singleton, noDoubleWs]
  have hO : cleanStreetName ("Oak St" : String).data := by
    refine ⟨by decide, by decide, ?_, ?_, ?_⟩
    · intro c hc; simp at hc; subst hc; decide
    · intro c hc; simp [List.getLast?] at hc; subst hc; decide
    · simp +decide [List.chain'_cons, List.chain'_singleton, noDoubleWs]
  obtain ⟨hcomm, hsorted⟩ := normalizeCrashLocation_unordered_pair "Elm St" "Oak St" hE hO
  refine ⟨hcomm, ?_⟩
  rw [hsorted, if_neg (by decide)]

/-! ## C8: the misc section -/

/-- C8 fails as stated: a counter absent from the model is rendered as
the literal `undefined` with a `NaN%` percentage, not as `0`. -/
theorem displayStats_misc_absent_counterexample :
    _logConsoleStat "\tWith Animal" none 10 = "\tWith Animal - undefined (NaN%)" ∧
    _logConsoleStat "\tWith Animal" none 10 ≠ "\tWith Animal - 0 (0%)" := by
  refine ⟨by decide, by decide⟩

/-- C8 (amended): for every statistics model, the misc section
reports exactly the seven boolean involvement counters, in source
order, each against the model's `totalCrashes`; a present counter is
rendered as its count, while an absent counter is rendered as the
literal text `undefined` with percentage `NaN%` (not as `0`). -/
theorem displayStatsMisc_spec (s : CrashStats) :
    displayStatsMisc s = [
      _logConsoleStat "\tAggressive Driving" s.includesAggressiveDriver s.totalCrashes,
      _logConsoleStat "\tInvolved Alcohol " s.includesAlcohol s.totalCrashes,
      _logConsoleStat "\tInvolved Cell Phone " s.includesCellPhone s.totalCrashes,
      _logConsoleStat "\tInvolved Drugs " s.includesDrugs s.totalCrashes,
      _logConsoleStat "\tProperty Damage" s.includesPropertyDamage s.totalCrashes,
      _logConsoleStat "\tWith Animal" s.includesAnimal s.totalCrashes,
      _logConsoleStat "\tWith Cyclist" s.includesBicycle s.totalCrashes ] ∧
    (∀ title total, _logConsoleStat title none total =
      title ++ " - " ++ "undefined" ++ " (" ++ "NaN%" ++ ")") ∧
    (∀ title v total, _logConsoleStat title (some v) total =
      title ++ " - " ++ toString v ++ " (" ++
        _convertToPercentString (some v) total ++ ")") :=
  ⟨rfl, fun _ _ => rfl, fun _ _ _ => rfl⟩

/-! ## C9: the hour section's key order -/

theorem nodup_keys_incrementSummation {κ : Type} [DecidableEq κ]
    (l : List (κ × Nat)) (k : κ) (h : (l.map Prod.fst).Nodup) :
    ((_incrementSummation l k).map Prod.fst).Nodup := by
  rw [keys_incrementSummation]
  split
  · exact h
  · rename_i hmem
    simp [List.nodup_append, h, hmem]

theorem foldl_nodup_keys {κ : Type} [DecidableEq κ] (f : CrashRecord → κ)
    (l : List CrashRecord) (m : List (κ × Nat)) (hm : (m.map Prod.fst).Nodup) :
    ((l.foldl (fun acc i => _incrementSummation acc (f i)) m).map Prod.fst).Nodup := by
  induction l generalizing m with
  | nil => exact hm
  | cons i t ih =>
    simp only [List.foldl_cons]
    exact ih _ (nodup_keys_incrementSummation _ _ hm)

/-- C9: for the statistics of any record sequence, the hour section's
lines follow `Object.keys`' enumeration of the hour mapping, which is
the strictly ascending numeric order of the bucket keys; the keys
listed are exactly the buckets present in the breakdown, all below
24 — even though `displayStats` passes no sort function for this
breakdown. -/
theorem displayStats_hour_order (data : List CrashRecord) :
    List.Sorted (· < ·) (jsIntegerKeys (computeStats data).hour) ∧
    (∀ k, k ∈ jsIntegerKeys (computeStats data).hour ↔
      ∃ v, (k, v) ∈ (computeStats data).hour) ∧
    (∀ k ∈ jsIntegerKeys (computeStats data).hour, k < 24) ∧
    displayStatsHourLines (computeStats data) =
      (jsIntegerKeys (computeStats data).hour).map (fun k =>
        _logConsoleStat ("\t" ++ toString k)
          (some (lookupCount (computeStats data).hour k))
          (computeStats data).totalCrashes) := by
  have hnodup : ((computeStats data).hour.map Prod.fst).Nodup := by
    rw [computeStats_hour]
    exact foldl_nodup_keys _ data [] (by simp)
  have hperm : (jsIntegerKeys (computeStats data).hour).Perm
      ((computeStats data).hour.map Prod.fst) :=
    List.perm_insertionSort _ _
  have hsortedLe : List.Sorted (· ≤ ·) (jsIntegerKeys (computeStats data).hour) :=
    List.sorted_insertionSort _ _
  have hnodup' : (jsIntegerKeys (computeStats data).hour).Nodup :=
    hperm.nodup_iff.mpr hnodup
  refine ⟨?_, ?_, ?_, rfl⟩
  · exact (hsortedLe.and hnodup').imp fun h => lt_of_le_of_ne h.1 h.2
  · intro k
    rw [hperm.mem_iff, ← exists_val_iff_mem_keys]
  · intro k hk
    have hin : ∃ v, (k, v) ∈ (computeStats data).hour :=
      (exists_val_iff_mem_keys _ _).mpr (hperm.mem_iff.mp hk)
    rw [computeStats_hour, foldl_mem_iff] at hin
    rcases hin with ⟨v, hv⟩ | ⟨i, -, hi⟩
    · simp at hv
    · rw [← hi]
      exact Nat.mod_lt _ (by norm_num)

/-- Witness for C9 at a concrete input: the three sample records yield
buckets 6 (from raw hour 2) and 17 (from raw hour 13), displayed in
that ascending order. -/
theorem displayStats_hour_order_witness :
    jsIntegerKeys (computeStats [sampleRecord, sampleRecord2]).hour = [6, 17] ∧
    (6 ∈ jsIntegerKeys (computeStats [sampleRecord, sampleRecord2]).hour ↔
      ∃ v, ((6 : Nat), v) ∈ (computeStats [sampleRecord, sampleRecord2]).hour) := by
  obtain ⟨-, hiff, -, -⟩ := displayStats_hour_order [sampleRecord, sampleRecord2]
  exact ⟨by decide, hiff 6⟩

end GRCrash
